import Mathlib

/-
Verification of the Raspberry Pi voice client's real-time audio core
(pi-voice-client/src): the playback queue and output callback of
`audio_handler.py`, the stereo-to-mono downmix paths of `webrtc_client.py`,
the GPIO debounce of `button_handler.py`, and the press guard of `main.py`.

Bytes of raw PCM data are modelled as natural numbers (a zero byte is `0`);
int16 samples as integers (the code widens to int32 before summing, and sums
of two int16 values are exact in `ℤ`); normalized float samples as rationals.
-/

/-- A raw PCM byte. -/
abbrev Byte := Nat

/-- The chunk-slicing loop of `AudioHandler.play_audio`
(audio_handler.py lines 429-440): starting at offset 0, repeatedly slice
`c` bytes (`expected_chunk_size`) and enqueue the slice; an empty slice
(possible only when `c = 0` or the data is exhausted) breaks the loop. -/
def sliceChunks (c : Nat) (data : List Byte) : List (List Byte) :=
  if h : c = 0 ∨ data = [] then []
  else data.take c :: sliceChunks c (data.drop c)
termination_by data.length
decreasing_by
  push_neg at h
  obtain ⟨hc, hd⟩ := h
  simp only [List.length_drop]
  have h1 : 0 < data.length := List.length_pos.mpr hd
  have h2 : 0 < c := Nat.pos_of_ne_zero hc
  omega

/-- PyAudio stream continuation flags returned by stream callbacks. -/
inductive StreamFlag where
  | paContinue
  | paComplete
deriving DecidableEq, Repr

/-- The constant `self.max_empty_callbacks` (audio_handler.py line 66). -/
def maxEmptyCallbacks : Nat := 3000

/-- The playback-side state of `AudioHandler`: the FIFO `playback_queue`
(head is the next chunk `get_nowait` returns; `put` appends at the tail),
`empty_callback_count`, `write_count`, and `is_playing`. -/
structure PlaybackState where
  queue : List (List Byte)
  emptyCallbackCount : Nat
  writeCount : Nat
  isPlaying : Bool
deriving DecidableEq, Repr

/-- The size adjustment `_output_callback` applies to an undersized dequeued
chunk (audio_handler.py lines 339-345): append zero bytes up to `bytesNeeded`. -/
def padWithSilence (bytesNeeded : Nat) (chunk : List Byte) : List Byte :=
  if chunk.length < bytesNeeded then
    chunk ++ List.replicate (bytesNeeded - chunk.length) 0
  else chunk

/-- The function `AudioHandler._output_callback` (audio_handler.py lines 295-398).
`bytes_needed = frame_count * channels * format_width` is computed first;
`raiseErr` models an unexpected exception while processing a dequeued chunk
(the trailing `except Exception` arm, lines 394-398); the `queue.Empty`
branch (lines 368-392) is the `queue = []` case. Returns the `(data, flag)`
pair handed back to PyAudio, together with the updated handler state. -/
def outputCallback (frameCount channels formatWidth : Nat) (raiseErr : Bool)
    (s : PlaybackState) : (Option (List Byte) × StreamFlag) × PlaybackState :=
  let bytesNeeded := frameCount * channels * formatWidth
  if raiseErr then
    ((some (List.replicate bytesNeeded 0), .paContinue), s)
  else
    match s.queue with
    | audioData :: rest =>
      let s1 : PlaybackState := { s with queue := rest, emptyCallbackCount := 0 }
      if audioData.length = bytesNeeded then
        ((some audioData, .paContinue), { s1 with writeCount := s1.writeCount + 1 })
      else if audioData.length < bytesNeeded then
        ((some (padWithSilence bytesNeeded audioData), .paContinue),
          { s1 with writeCount := s1.writeCount + 1 })
      else
        let remainder := audioData.drop bytesNeeded
        let s2 : PlaybackState :=
          if 0 < remainder.length then { s1 with queue := s1.queue ++ [remainder] } else s1
        ((some (audioData.take bytesNeeded), .paContinue),
          { s2 with writeCount := s2.writeCount + 1 })
    | [] =>
      let s1 : PlaybackState := { s with emptyCallbackCount := s.emptyCallbackCount + 1 }
      if maxEmptyCallbacks ≤ s1.emptyCallbackCount ∧ 0 < s1.writeCount then
        ((none, .paComplete), { s1 with isPlaying := false })
      else
        ((some (List.replicate bytesNeeded 0), .paContinue), s1)

/-- The function `AudioHandler.play_audio` (audio_handler.py lines 400-462): an empty
input logs a warning and returns immediately; otherwise the input is sliced
into `expected_chunk_size`-byte chunks enqueued in order at the tail of the
playback queue, and `_start_playback` runs if playback is not already active
(it resets both callback counters and sets `is_playing`, lines 542-546). -/
def play_audio (chunkSize channels formatWidth : Nat) (s : PlaybackState)
    (audioData : List Byte) : PlaybackState :=
  if audioData = [] then s
  else
    let expectedChunkSize := chunkSize * channels * formatWidth
    let s1 : PlaybackState :=
      { s with queue := s.queue ++ sliceChunks expectedChunkSize audioData }
    if s1.isPlaying then s1
    else { s1 with isPlaying := true, emptyCallbackCount := 0, writeCount := 0 }

lemma sliceChunks_nil (c : Nat) : sliceChunks c [] = [] := by
  rw [sliceChunks]
  simp

lemma sliceChunks_cons {c : Nat} {data : List Byte} (hc : c ≠ 0) (hd : data ≠ []) :
    sliceChunks c data = data.take c :: sliceChunks c (data.drop c) := by
  rw [sliceChunks]
  simp [hc, hd]

lemma sliceChunks_eq_nil_iff {c : Nat} {data : List Byte} :
    sliceChunks c data = [] ↔ (c = 0 ∨ data = []) := by
  constructor
  · intro h
    by_contra hcontra
    push_neg at hcontra
    rw [sliceChunks_cons hcontra.1 hcontra.2] at h
    exact List.cons_ne_nil _ _ h
  · rintro (h | h)
    · subst h; rw [sliceChunks]; simp
    · subst h; exact sliceChunks_nil c

lemma sliceChunks_flatten {c : Nat} (hc : c ≠ 0) :
    ∀ data : List Byte, (sliceChunks c data).flatten = data := by
  intro data
  generalize hn : data.length = n
  induction n using Nat.strong_induction_on generalizing data with
  | _ n ih =>
    by_cases hd : data = []
    · subst hd; simp [sliceChunks_nil]
    · rw [sliceChunks_cons hc hd, List.flatten_cons]
      have hlt : (data.drop c).length < data.length := by
        simp only [List.length_drop]
        have h1 : 0 < data.length := List.length_pos.mpr hd
        have h2 : 0 < c := Nat.pos_of_ne_zero hc
        omega
      rw [ih _ (hn ▸ hlt) _ rfl]
      exact List.take_append_drop c data

lemma padWithSilence_eq (c : Nat) (chunk : List Byte) :
    padWithSilence c chunk = chunk ++ List.replicate (c - chunk.length) 0 := by
  unfold padWithSilence
  split
  · rfl
  · next h =>
    have hz : c - chunk.length = 0 := by omega
    simp [hz]

lemma sliceChunks_dropLast_length {c : Nat} (hc : c ≠ 0) :
    ∀ data : List Byte, ∀ chunk ∈ (sliceChunks c data).dropLast, chunk.length = c := by
  intro data
  generalize hn : data.length = n
  induction n using Nat.strong_induction_on generalizing data with
  | _ n ih =>
    by_cases hd : data = []
    · subst hd; simp [sliceChunks_nil]
    · rcases hrest : sliceChunks c (data.drop c) with _ | ⟨r2, rs⟩
      · simp [sliceChunks_cons hc hd, hrest]
      · rw [sliceChunks_cons hc hd, hrest]
        intro chunk hm
        have hdropne : data.drop c ≠ [] := by
          intro hdrop
          rw [sliceChunks_eq_nil_iff.mpr (Or.inr hdrop)] at hrest
          exact List.cons_ne_nil _ _ hrest.symm
        have hlen : c < data.length := by
          have := List.length_pos.mpr hdropne
          simp only [List.length_drop] at this
          omega
        rw [List.dropLast_cons₂] at hm
        rcases List.mem_cons.mp hm with h | h
        · subst h
          simp [List.length_take]
          omega
        · have hlt : (data.drop c).length < data.length := by
            simp only [List.length_drop]; omega
          have := ih _ (hn ▸ hlt) (data.drop c) rfl chunk
          rw [hrest] at this
          exact this h

lemma sliceChunks_getLast_length {c : Nat} (hc : c ≠ 0) :
    ∀ data : List Byte, data ≠ [] →
      ∃ lastChunk, (sliceChunks c data).getLast? = some lastChunk ∧
        lastChunk.length = (if data.length % c = 0 then c else data.length % c) := by
  intro data
  generalize hn : data.length = n
  induction n using Nat.strong_induction_on generalizing data with
  | _ n ih =>
    intro hd
    rcases hrest : sliceChunks c (data.drop c) with _ | ⟨r2, rs⟩
    · refine ⟨data.take c, ?_, ?_⟩
      · rw [sliceChunks_cons hc hd, hrest]
        rfl
      · have hdrop : data.drop c = [] := by
          rcases sliceChunks_eq_nil_iff.mp hrest with h | h
          · exact absurd h hc
          · exact h
        have hle : data.length ≤ c := by
          have := congrArg List.length hdrop
          simp only [List.length_drop, List.length_nil] at this
          omega
        have hpos : 0 < data.length := List.length_pos.mpr hd
        have hmin : min c data.length = data.length := Nat.min_eq_right hle
        rw [List.length_take, hmin, hn]
        have hle' : n ≤ c := hn ▸ hle
        have hpos' : 0 < n := hn ▸ hpos
        by_cases heq : n = c
        · subst heq
          simp [Nat.mod_self]
        · have hlt : n < c := by omega
          rw [Nat.mod_eq_of_lt hlt, if_neg (by omega)]
    · have hdropne : data.drop c ≠ [] := by
        intro hdrop
        rw [sliceChunks_eq_nil_iff.mpr (Or.inr hdrop)] at hrest
        exact List.cons_ne_nil _ _ hrest.symm
      have hclen : c < data.length := by
        have := List.length_pos.mpr hdropne
        simp only [List.length_drop] at this
        omega
      have hlt : (data.drop c).length < data.length := by
        simp only [List.length_drop]; omega
      obtain ⟨lastChunk, hlast, hlen⟩ := ih _ (hn ▸ hlt) (data.drop c) rfl hdropne
      refine ⟨lastChunk, ?_, ?_⟩
      · rw [sliceChunks_cons hc hd, hrest]
        rw [hrest] at hlast
        rw [List.getLast?_cons_cons]
        exact hlast
      · have hsub : data.length % c = (data.length - c) % c :=
          Nat.mod_eq_sub_mod (le_of_lt hclen)
        simp only [List.length_drop] at hlen
        rw [← hn, hsub]
        exact hlen

/-- C1: Re-slicing preserves bytes. `play_audio` enqueues the slices of the
input in order at the tail of the playback queue; the concatenation of those
slices (what the callback dequeues, before its padding step) is exactly the
original input; the callback's padding consists solely of zero bytes; every
chunk except the last is exactly `C = chunk_size * channels * format_width`
bytes long, so padding can occur only on the final chunk; and the final chunk
is shorter than `C` (and hence padded) exactly when `N % C ≠ 0`. -/
theorem play_audio_reslicing_preserves_bytes
    (chunkSize channels formatWidth : Nat) (s : PlaybackState) (data : List Byte)
    (hc : chunkSize * channels * formatWidth ≠ 0) (hd : data ≠ []) :
    (play_audio chunkSize channels formatWidth s data).queue
        = s.queue ++ sliceChunks (chunkSize * channels * formatWidth) data ∧
    (sliceChunks (chunkSize * channels * formatWidth) data).flatten = data ∧
    (∀ chunk ∈ sliceChunks (chunkSize * channels * formatWidth) data,
      padWithSilence (chunkSize * channels * formatWidth) chunk
        = chunk ++ List.replicate (chunkSize * channels * formatWidth - chunk.length) 0) ∧
    (∀ chunk ∈ (sliceChunks (chunkSize * channels * formatWidth) data).dropLast,
      chunk.length = chunkSize * channels * formatWidth ∧
      padWithSilence (chunkSize * channels * formatWidth) chunk = chunk) ∧
    (∃ lastChunk,
      (sliceChunks (chunkSize * channels * formatWidth) data).getLast? = some lastChunk ∧
      lastChunk.length
        = (if data.length % (chunkSize * channels * formatWidth) = 0
           then chunkSize * channels * formatWidth
           else data.length % (chunkSize * channels * formatWidth)) ∧
      (data.length % (chunkSize * channels * formatWidth) = 0 →
        padWithSilence (chunkSize * channels * formatWidth) lastChunk = lastChunk)) := by
  refine ⟨?_, sliceChunks_flatten hc data, fun chunk _ => padWithSilence_eq _ chunk,
    ?_, ?_⟩
  · simp only [play_audio, if_neg hd]
    split <;> rfl
  · intro chunk hm
    have hlen := sliceChunks_dropLast_length hc data chunk hm
    refine ⟨hlen, ?_⟩
    rw [padWithSilence_eq, hlen]
    simp
  · obtain ⟨lastChunk, hlast, hlen⟩ := sliceChunks_getLast_length hc data hd
    refine ⟨lastChunk, hlast, hlen, ?_⟩
    intro hmod
    rw [padWithSilence_eq, hlen]
    simp [hmod]

theorem play_audio_reslicing_preserves_bytes_witness :
    (1 * 1 * 2 ≠ 0) ∧ ([1, 2, 3] : List Byte) ≠ [] ∧
    ((play_audio 1 1 2 ⟨[], 0, 0, false⟩ [1, 2, 3]).queue
        = [] ++ sliceChunks (1 * 1 * 2) [1, 2, 3] ∧
    (sliceChunks (1 * 1 * 2) [1, 2, 3]).flatten = [1, 2, 3] ∧
    (∀ chunk ∈ sliceChunks (1 * 1 * 2) [1, 2, 3],
      padWithSilence (1 * 1 * 2) chunk
        = chunk ++ List.replicate (1 * 1 * 2 - chunk.length) 0) ∧
    (∀ chunk ∈ (sliceChunks (1 * 1 * 2) [1, 2, 3]).dropLast,
      chunk.length = 1 * 1 * 2 ∧
      padWithSilence (1 * 1 * 2) chunk = chunk) ∧
    (∃ lastChunk,
      (sliceChunks (1 * 1 * 2) [1, 2, 3]).getLast? = some lastChunk ∧
      lastChunk.length
        = (if ([1, 2, 3] : List Byte).length % (1 * 1 * 2) = 0
           then 1 * 1 * 2
           else ([1, 2, 3] : List Byte).length % (1 * 1 * 2)) ∧
      (([1, 2, 3] : List Byte).length % (1 * 1 * 2) = 0 →
        padWithSilence (1 * 1 * 2) lastChunk = lastChunk))) :=
  ⟨by decide, by decide,
    play_audio_reslicing_preserves_bytes 1 1 2 ⟨[], 0, 0, false⟩ [1, 2, 3]
      (by decide) (by decide)⟩

/-- C10: calling `play_audio` with an empty byte buffer is a no-op: it returns
immediately (after the warning log), enqueues nothing on the playback queue,
and leaves `is_playing` and both callback counters unchanged. -/
theorem play_audio_empty_input_noop (chunkSize channels formatWidth : Nat)
    (s : PlaybackState) :
    play_audio chunkSize channels formatWidth s [] = s := by
  simp [play_audio]

lemma outputCallback_empty (fc ch w ec wc : Nat) (ip : Bool) :
    outputCallback fc ch w false ⟨[], ec, wc, ip⟩
      = (if maxEmptyCallbacks ≤ ec + 1 ∧ 0 < wc then
          ((none, .paComplete), ⟨[], ec + 1, wc, false⟩)
        else
          ((some (List.replicate (fc * ch * w) 0), .paContinue), ⟨[], ec + 1, wc, ip⟩)) := by
  rfl

lemma outputCallback_cons (fc ch w : Nat) (d : List Byte) (rest : List (List Byte))
    (ec wc : Nat) (ip : Bool) :
    outputCallback fc ch w false ⟨d :: rest, ec, wc, ip⟩
      = (if d.length = fc * ch * w then
           ((some d, .paContinue), ⟨rest, 0, wc + 1, ip⟩)
         else if d.length < fc * ch * w then
           ((some (padWithSilence (fc * ch * w) d), .paContinue), ⟨rest, 0, wc + 1, ip⟩)
         else if 0 < (d.drop (fc * ch * w)).length then
           ((some (d.take (fc * ch * w)), .paContinue),
             ⟨rest ++ [d.drop (fc * ch * w)], 0, wc + 1, ip⟩)
         else
           ((some (d.take (fc * ch * w)), .paContinue), ⟨rest, 0, wc + 1, ip⟩)) := by
  unfold outputCallback
  split_ifs <;> simp_all

/-- The state transition of one empty-queue output callback. -/
def emptyStep (frameCount channels formatWidth : Nat) (s : PlaybackState) :
    PlaybackState :=
  (outputCallback frameCount channels formatWidth false s).2

lemma emptyStep_iterate (fc ch w wc : Nat) (ip : Bool) :
    ∀ k ec, ec + k < maxEmptyCallbacks →
      (emptyStep fc ch w)^[k] ⟨[], ec, wc, ip⟩ = ⟨[], ec + k, wc, ip⟩ := by
  intro k
  induction k with
  | zero => intro ec _; simp
  | succ k ih =>
    intro ec h
    rw [Function.iterate_succ_apply]
    have hstep : emptyStep fc ch w ⟨[], ec, wc, ip⟩ = ⟨[], ec + 1, wc, ip⟩ := by
      unfold emptyStep
      rw [outputCallback_empty, if_neg (by omega)]
    rw [hstep]
    have harith : ec + 1 + k = ec + (k + 1) := by omega
    rw [ih (ec + 1) (by omega), harith]

/-- C2: Auto-stop threshold. Starting from the state right after the last real
chunk was played (`empty_callback_count = 0`, `write_count > 0`, queue
drained), each of the first `max_empty_callbacks - 1 = 2999` consecutive empty
callbacks returns silence with `paContinue`; the `max_empty_callbacks`-th
(3000-th) consecutive empty callback returns `paComplete` and clears
`is_playing`, stopping the stream; and any callback that successfully
dequeues a chunk resets the consecutive-empty counter to 0. -/
theorem auto_stop_after_exactly_maxEmptyCallbacks
    (frameCount channels formatWidth : Nat) (s : PlaybackState)
    (hq : s.queue = []) (he : s.emptyCallbackCount = 0) (hw : 0 < s.writeCount) :
    (∀ n, 0 < n → n < maxEmptyCallbacks →
      (outputCallback frameCount channels formatWidth false
        ((emptyStep frameCount channels formatWidth)^[n - 1] s)).1.2
        = StreamFlag.paContinue) ∧
    (outputCallback frameCount channels formatWidth false
      ((emptyStep frameCount channels formatWidth)^[maxEmptyCallbacks - 1] s)).1.2
      = StreamFlag.paComplete ∧
    ((outputCallback frameCount channels formatWidth false
      ((emptyStep frameCount channels formatWidth)^[maxEmptyCallbacks - 1] s)).2).isPlaying
      = false ∧
    (∀ s' : PlaybackState, ∀ d rest, s'.queue = d :: rest →
      ((outputCallback frameCount channels formatWidth false s').2).emptyCallbackCount
        = 0) := by
  obtain ⟨q, ec, wc, ip⟩ := s
  simp only at hq he hw
  subst hq he
  have hM : 0 < maxEmptyCallbacks := by simp [maxEmptyCallbacks]
  refine ⟨?_, ?_, ?_, ?_⟩
  · intro n hn0 hnT
    rw [emptyStep_iterate frameCount channels formatWidth wc ip (n - 1) 0 (by omega)]
    rw [outputCallback_empty, if_neg (by omega)]
  · rw [emptyStep_iterate frameCount channels formatWidth wc ip
      (maxEmptyCallbacks - 1) 0 (by omega)]
    rw [outputCallback_empty, if_pos (by omega)]
  · rw [emptyStep_iterate frameCount channels formatWidth wc ip
      (maxEmptyCallbacks - 1) 0 (by omega)]
    rw [outputCallback_empty, if_pos (by omega)]
  · intro s' d rest hq'
    obtain ⟨q', ec', wc', ip'⟩ := s'
    simp only at hq'
    subst hq'
    rw [outputCallback_cons]
    split_ifs <;> rfl

theorem auto_stop_after_exactly_maxEmptyCallbacks_witness :
    (PlaybackState.queue ⟨[], 0, 1, true⟩ = []) ∧
    (PlaybackState.emptyCallbackCount ⟨[], 0, 1, true⟩ = 0) ∧
    (0 < PlaybackState.writeCount ⟨[], 0, 1, true⟩) ∧
    ((∀ n, 0 < n → n < maxEmptyCallbacks →
      (outputCallback 480 1 2 false
        ((emptyStep 480 1 2)^[n - 1] ⟨[], 0, 1, true⟩)).1.2
        = StreamFlag.paContinue) ∧
    (outputCallback 480 1 2 false
      ((emptyStep 480 1 2)^[maxEmptyCallbacks - 1] ⟨[], 0, 1, true⟩)).1.2
      = StreamFlag.paComplete ∧
    ((outputCallback 480 1 2 false
      ((emptyStep 480 1 2)^[maxEmptyCallbacks - 1] ⟨[], 0, 1, true⟩)).2).isPlaying
      = false ∧
    (∀ s' : PlaybackState, ∀ d rest, s'.queue = d :: rest →
      ((outputCallback 480 1 2 false s').2).emptyCallbackCount = 0)) :=
  ⟨rfl, rfl, by decide,
    auto_stop_after_exactly_maxEmptyCallbacks 480 1 2 ⟨[], 0, 1, true⟩
      rfl rfl (by decide)⟩

/-- C3 counterexample: the claim says an oversized chunk's remainder is
re-enqueued at the *front* of the PlaybackQueue so that the next dequeue
yields it before any chunk enqueued later. In the code the remainder is
re-enqueued with `queue.put`, which appends at the *tail*: with queue
`[[1,2,3,4], [9,9]]` and a requested size of `1*1*2 = 2` bytes, the callback
returns `[1,2]` and leaves the queue `[[9,9], [3,4]]`, so the next dequeue
yields `[9,9]`, not the remainder `[3,4]`. -/
theorem output_callback_oversized_remainder_goes_to_back :
    ((outputCallback 1 1 2 false ⟨[[1, 2, 3, 4], [9, 9]], 0, 0, true⟩).2).queue
      = [[9, 9], [3, 4]] ∧
    ((outputCallback 1 1 2 false ⟨[[1, 2, 3, 4], [9, 9]], 0, 0, true⟩).2).queue
      ≠ [3, 4] :: [[9, 9]] ∧
    ((outputCallback 1 1 2 false ⟨[[1, 2, 3, 4], [9, 9]], 0, 0, true⟩).2).queue.head?
      ≠ some [3, 4] ∧
    (outputCallback 1 1 2 false ⟨[[1, 2, 3, 4], [9, 9]], 0, 0, true⟩).1.1
      = some [1, 2] := by decide

/-- C3 amended: when the dequeued chunk is larger than the requested byte
count, the callback returns exactly the first requested bytes and the
remainder is re-enqueued at the *back* (tail) of the PlaybackQueue; no bytes
are duplicated or lost (returned bytes ++ remainder = original chunk), and
the next dequeue yields the remainder only when no other chunk was queued
behind the oversized one. -/
theorem output_callback_oversized_split
    (frameCount channels formatWidth : Nat) (s : PlaybackState)
    (d : List Byte) (rest : List (List Byte))
    (hq : s.queue = d :: rest) (hlen : frameCount * channels * formatWidth < d.length) :
    (outputCallback frameCount channels formatWidth false s).1
      = (some (d.take (frameCount * channels * formatWidth)), StreamFlag.paContinue) ∧
    ((outputCallback frameCount channels formatWidth false s).2).queue
      = rest ++ [d.drop (frameCount * channels * formatWidth)] ∧
    d.take (frameCount * channels * formatWidth)
        ++ d.drop (frameCount * channels * formatWidth) = d ∧
    (rest = [] →
      ((outputCallback frameCount channels formatWidth false s).2).queue
        = [d.drop (frameCount * channels * formatWidth)]) := by
  obtain ⟨q, ec, wc, ip⟩ := s
  simp only at hq
  subst hq
  rw [outputCallback_cons, if_neg (by omega), if_neg (by omega),
    if_pos (by simp only [List.length_drop]; omega)]
  refine ⟨rfl, rfl, List.take_append_drop _ d, ?_⟩
  intro hrest
  rw [hrest]
  rfl

theorem output_callback_oversized_split_witness :
    (PlaybackState.queue ⟨[[1, 2, 3, 4], [9, 9]], 0, 0, true⟩
      = [1, 2, 3, 4] :: [[9, 9]]) ∧
    (1 * 1 * 2 < ([1, 2, 3, 4] : List Byte).length) ∧
    ((outputCallback 1 1 2 false ⟨[[1, 2, 3, 4], [9, 9]], 0, 0, true⟩).1
      = (some (([1, 2, 3, 4] : List Byte).take (1 * 1 * 2)), StreamFlag.paContinue) ∧
    ((outputCallback 1 1 2 false ⟨[[1, 2, 3, 4], [9, 9]], 0, 0, true⟩).2).queue
      = [[9, 9]] ++ [([1, 2, 3, 4] : List Byte).drop (1 * 1 * 2)] ∧
    ([1, 2, 3, 4] : List Byte).take (1 * 1 * 2)
        ++ ([1, 2, 3, 4] : List Byte).drop (1 * 1 * 2) = [1, 2, 3, 4] ∧
    ([[9, 9]] = ([] : List (List Byte)) →
      ((outputCallback 1 1 2 false ⟨[[1, 2, 3, 4], [9, 9]], 0, 0, true⟩).2).queue
        = [([1, 2, 3, 4] : List Byte).drop (1 * 1 * 2)])) :=
  ⟨rfl, by decide,
    output_callback_oversized_split 1 1 2 ⟨[[1, 2, 3, 4], [9, 9]], 0, 0, true⟩
      [1, 2, 3, 4] [[9, 9]] rfl (by decide)⟩

/-- C8: Output-callback error containment. When processing inside
`_output_callback` raises, the callback does not propagate the exception (in
the model: the error branch is an ordinary total branch); it returns a
silence buffer of exactly `frame_count * channels * format_width` zero bytes
with the `paContinue` flag, for every state and every requested size. -/
theorem output_callback_error_returns_silence
    (frameCount channels formatWidth : Nat) (s : PlaybackState) :
    (outputCallback frameCount channels formatWidth true s).1
      = (some (List.replicate (frameCount * channels * formatWidth) 0),
         StreamFlag.paContinue) ∧
    (∃ buf, (outputCallback frameCount channels formatWidth true s).1.1 = some buf ∧
      buf.length = frameCount * channels * formatWidth ∧
      ∀ b ∈ buf, b = 0) := by
  refine ⟨rfl, List.replicate (frameCount * channels * formatWidth) 0, rfl, ?_, ?_⟩
  · exact List.length_replicate _ _
  · intro b hb
    exact List.eq_of_mem_replicate hb

/-- int16 clipping: `np.clip(x, -32768, 32767)`. -/
def clipInt16 (x : ℤ) : ℤ := max (-32768) (min 32767 x)

/-- Even-indexed entries of a list (the left channel of an interleaved
stereo sample buffer, `array[::2]`). -/
def evenEntries {α : Type} : List α → List α
  | [] => []
  | [a] => [a]
  | a :: _ :: rest => a :: evenEntries rest

/-- Odd-indexed entries of a list (the right channel of an interleaved
stereo sample buffer, `array[1::2]`). -/
def oddEntries {α : Type} : List α → List α
  | [] => []
  | [_] => []
  | _ :: b :: rest => b :: oddEntries rest

/-- The int16 stereo-to-mono branch of `WebRTCClient._handle_incoming_audio`
(webrtc_client.py lines 409-435), for 2-D frames (`av` always returns 2-D
arrays: one row per channel when planar, a single row of `samples*2`
interleaved values when packed). A `(1, samples*2)` array is first reshaped
with `array.reshape(2, frame.samples)` — numpy row-major reshape, i.e. the
first row is the first half of the flat buffer and the second row the second
half — then a 2-row array is downmixed per-entry by `np.clip(row0.astype(
int32) + row1.astype(int32), -32768, 32767)`; sums of two int16 values are
exact in `ℤ`. Any other 2-D shape falls back to the first row
(`array[0]`). -/
def int16StereoToMono (samples : Nat) (rows : List (List ℤ)) : List ℤ :=
  let rows2 := match rows with
    | [r] => if r.length = samples * 2 then [r.take samples, r.drop samples] else [r]
    | _ => rows
  match rows2 with
  | [l, r] => List.zipWith (fun a b => clipInt16 (a + b)) l r
  | r :: _ => r
  | [] => []

/-- The two channel sample sequences of a stereo frame, as the claim reads
them: planar frames carry one row per channel; a packed frame's single row
alternates left and right samples. -/
def stereoChannelsInt (rows : List (List ℤ)) : List ℤ × List ℤ :=
  match rows with
  | [l, r] => (l, r)
  | [x] => (evenEntries x, oddEntries x)
  | _ => ([], [])

/-- The claim's sum-and-clip downmix applied to the actual channel pairs of
the frame. -/
def channelSumClipDownmix (rows : List (List ℤ)) : List ℤ :=
  List.zipWith (fun a b => clipInt16 (a + b))
    (stereoChannelsInt rows).1 (stereoChannelsInt rows).2

/-- C4 counterexample: the claim quantifies over every stereo int16 frame,
but for a packed (interleaved) frame — shape `(1, samples*2)`, the layout
`av` delivers for packed `s16` audio — the code's
`array.reshape(2, frame.samples)` splits the flat buffer into halves instead
of de-interleaving it, so the values summed are not the two channel samples
of one frame: for `samples = 2` and interleaved data `[L0, R0, L1, R1] =
[100, 5, 7, 3]` the code outputs `[100+7, 5+3] = [107, 8]` while the claimed
per-frame channel sums are `[100+5, 7+3] = [105, 10]`. -/
theorem int16_downmix_interleaved_not_channel_sum :
    int16StereoToMono 2 [[100, 5, 7, 3]] = [107, 8] ∧
    channelSumClipDownmix [[100, 5, 7, 3]] = [105, 10] ∧
    int16StereoToMono 2 [[100, 5, 7, 3]] ≠ channelSumClipDownmix [[100, 5, 7, 3]] := by
  decide

/-- C4 amended: for every *planar* stereo int16 frame (one row per channel,
shape `(2, N)`), the stereo-to-mono downmix sums the two channel samples as
wider (32-bit) integers and clips the sum to `[-32768, 32767]`; in
particular, for two full-scale identical-phase samples (both 32767) the
output sample is full-scale 32767, obtained by clipping the sum 65534. For
packed (interleaved) frames the reshape pairs the buffer's first and second
halves rather than the two channels, so the per-channel property does not
extend to them; and at (32767, 32767) averaging would also yield full scale,
so sum-and-clip is distinguished from naive averaging by inputs such as
(32767, 0), where the sum clips to 32767 but the average is half-scale. -/
theorem int16_downmix_planar_sum_clip (samples : Nat) (l r : List ℤ) :
    int16StereoToMono samples [l, r]
      = List.zipWith (fun a b => clipInt16 (a + b)) l r ∧
    int16StereoToMono samples [l, r] = channelSumClipDownmix [l, r] ∧
    int16StereoToMono 1 [[32767], [32767]] = [32767] ∧
    clipInt16 (32767 + 32767) = 32767 ∧
    clipInt16 (32767 + 0) = 32767 := by
  exact ⟨rfl, rfl, by decide, by decide, by decide⟩

/-- Float-to-unit clipping: `np.clip(x, -1.0, 1.0)`. -/
def clipUnit (x : ℚ) : ℚ := max (-1) (min 1 x)

/-- Conversion `astype(np.int16)` on an in-range float value truncates toward zero. -/
def truncToInt (x : ℚ) : ℤ := if 0 ≤ x then ⌊x⌋ else ⌈x⌉

/-- The float stereo-to-mono branch of `WebRTCClient._handle_incoming_audio`
(webrtc_client.py lines 376-400), for 2-D frames of normalized float
samples. A `(1, samples*2)` packed frame is first reshaped with
`array.reshape(2, frame.samples)` (numpy row-major: first row = first half
of the flat buffer); a 2-row array is then averaged entrywise at float level
(`(array[0] + array[1]) / 2.0`); finally the mono signal is clipped to
`[-1, 1]`, scaled by 32767 and truncated to int16. Any other 2-D shape
falls back to the first row. -/
def floatStereoToMono (samples : Nat) (rows : List (List ℚ)) : List ℤ :=
  let rows2 := match rows with
    | [r] => if r.length = samples * 2 then [r.take samples, r.drop samples] else [r]
    | _ => rows
  let mono : List ℚ := match rows2 with
    | [l, r] => List.zipWith (fun a b => (a + b) / 2) l r
    | r :: _ => r
    | [] => []
  mono.map fun x => truncToInt (clipUnit x * 32767)

/-- The two channel sample sequences of a stereo float frame, as the claim
reads them: planar frames carry one row per channel; a packed frame's single
row alternates left and right samples. -/
def stereoChannelsFloat (rows : List (List ℚ)) : List ℚ × List ℚ :=
  match rows with
  | [l, r] => (l, r)
  | [x] => (evenEntries x, oddEntries x)
  | _ => ([], [])

/-- The claimed float downmix: average the two channels at float level
before scaling, then clip to `[-1, 1]`, scale to the int16 range and
truncate. -/
def channelAvgDownmix (rows : List (List ℚ)) : List ℤ :=
  (List.zipWith (fun a b => (a + b) / 2)
      (stereoChannelsFloat rows).1 (stereoChannelsFloat rows).2).map
    fun x => truncToInt (clipUnit x * 32767)

/-- C5: the claim (averaging the two channels before scaling, for planar and
interleaved layouts alike) matches the code's own comment
("Interleaved stereo: reshape to planar"), but `array.reshape(2,
frame.samples)` does not de-interleave a packed buffer — numpy's row-major
reshape makes row 0 the first half and row 1 the second half of the
interleaved stream. For `samples = 2` and packed data `[L0, R0, L1, R1] =
[1, -1, 1, -1]` (full-scale left channel, inverted right channel) the code
averages `1` with `1` and `-1` with `-1`, outputting `[32767, -32767]` after
scaling, while averaging the actual channels yields silence `[0, 0]`.
Planar frames (shape `(2, N)`) are averaged correctly, as the last conjunct
records. -/
theorem float_downmix_interleaved_reshape_bug :
    floatStereoToMono 2 [[1, -1, 1, -1]] = [32767, -32767] ∧
    channelAvgDownmix [[1, -1, 1, -1]] = [0, 0] ∧
    floatStereoToMono 2 [[1, -1, 1, -1]]
      ≠ channelAvgDownmix [[1, -1, 1, -1]] ∧
    (∀ samples : Nat, ∀ l r : List ℚ,
      floatStereoToMono samples [l, r] = channelAvgDownmix [l, r]) := by
  have hcast : ((-32767 : ℚ)) = ((-32767 : ℤ) : ℚ) := by norm_num
  have h1 : floatStereoToMono 2 [[1, -1, 1, -1]] = [32767, -32767] := by
    simp [floatStereoToMono, truncToInt, clipUnit, min_def, max_def]
    norm_num
    rw [hcast, Int.ceil_intCast]
  have h2 : channelAvgDownmix [[1, -1, 1, -1]] = [0, 0] := by
    simp [channelAvgDownmix, stereoChannelsFloat, evenEntries, oddEntries,
      truncToInt, clipUnit, min_def, max_def]
    norm_num
  refine ⟨h1, h2, ?_, fun samples l r => rfl⟩
  rw [h1, h2]
  decide

/-- The constant `ButtonHandler.DEBOUNCE_TIME` (button_handler.py line 21): 50 ms, in
seconds. -/
def DEBOUNCE_TIME : ℚ := 1 / 20

/-- The debounce-relevant state of `ButtonHandler`: `is_pressed`,
`last_state` (`true` = GPIO HIGH, the pull-up resting level; `false` = LOW,
pressed) and `last_state_change_time`. -/
structure ButtonState where
  isPressed : Bool
  lastState : Bool
  lastStateChangeTime : ℚ
deriving DecidableEq

/-- A logical button event handed to the `on_press` / `on_release`
callbacks. -/
inductive ButtonEvent where
  | press
  | release
deriving DecidableEq, Repr

/-- The function `ButtonHandler._edge_callback` (button_handler.py lines 91-131).
An edge arriving within `DEBOUNCE_TIME` of the last accepted state change
returns immediately (state untouched, no event). Otherwise the timestamp is
recorded, the pin level is read (`currentState`, active LOW), a press is
recognized on a HIGH→LOW transition when not already pressed, a release on a
LOW→HIGH transition when pressed, and `last_state` is updated in every
non-debounced path. -/
def edge_callback (s : ButtonState) (currentTime : ℚ) (currentState : Bool) :
    ButtonState × Option ButtonEvent :=
  if currentTime - s.lastStateChangeTime < DEBOUNCE_TIME then (s, none)
  else
    let s1 : ButtonState :=
      { s with lastStateChangeTime := currentTime, lastState := currentState }
    if currentState = false ∧ s.lastState = true then
      if s.isPressed = false then ({ s1 with isPressed := true }, some .press)
      else (s1, none)
    else if currentState = true ∧ s.lastState = false then
      if s.isPressed = true then ({ s1 with isPressed := false }, some .release)
      else (s1, none)
    else (s1, none)

lemma edge_callback_accepted_time (s : ButtonState) (t : ℚ) (l : Bool)
    (h : ¬ t - s.lastStateChangeTime < DEBOUNCE_TIME) :
    (edge_callback s t l).1.lastStateChangeTime = t := by
  unfold edge_callback
  rw [if_neg h]
  split_ifs <;> rfl

lemma edge_callback_debounced (s : ButtonState) (t : ℚ) (l : Bool)
    (h : t - s.lastStateChangeTime < DEBOUNCE_TIME) :
    edge_callback s t l = (s, none) := by
  unfold edge_callback
  rw [if_pos h]

/-- C6: Debounce collapsing. (1) For any state and any two raw edges whose
timestamps differ by less than the 50 ms window, at most one logical event is
emitted, and if the first edge emitted an event the second is discarded
outright (state unchanged, no event). (2) Two edges each spaced at least the
window after the previously accepted change both pass the software debounce
filter (each records its timestamp as the new last accepted change).
(3) Edges spaced beyond the window can each produce a logical event:
from the released resting state, a LOW edge at t=1 emits a press and a HIGH
edge at t=2 emits a release. -/
theorem debounce_collapsing :
    (∀ (s : ButtonState) (t₁ t₂ : ℚ) (l₁ l₂ : Bool),
      t₂ - t₁ < DEBOUNCE_TIME →
      ((edge_callback s t₁ l₁).2 = none ∨
        (edge_callback (edge_callback s t₁ l₁).1 t₂ l₂).2 = none) ∧
      ((edge_callback s t₁ l₁).2 ≠ none →
        edge_callback (edge_callback s t₁ l₁).1 t₂ l₂
          = ((edge_callback s t₁ l₁).1, none))) ∧
    (∀ (s : ButtonState) (t₁ t₂ : ℚ) (l₁ l₂ : Bool),
      DEBOUNCE_TIME ≤ t₁ - s.lastStateChangeTime →
      DEBOUNCE_TIME ≤ t₂ - t₁ →
      (edge_callback s t₁ l₁).1.lastStateChangeTime = t₁ ∧
      (edge_callback (edge_callback s t₁ l₁).1 t₂ l₂).1.lastStateChangeTime = t₂) ∧
    ((edge_callback ⟨false, true, 0⟩ 1 false).2 = some ButtonEvent.press ∧
      (edge_callback (edge_callback ⟨false, true, 0⟩ 1 false).1 2 true).2
        = some ButtonEvent.release) := by
  refine ⟨?_, ?_, ?_, ?_⟩
  · intro s t₁ t₂ l₁ l₂ hlt
    by_cases h₁ : t₁ - s.lastStateChangeTime < DEBOUNCE_TIME
    · rw [edge_callback_debounced s t₁ l₁ h₁]
      refine ⟨Or.inl rfl, ?_⟩
      intro hcon
      exact absurd rfl hcon
    · have ht : (edge_callback s t₁ l₁).1.lastStateChangeTime = t₁ :=
        edge_callback_accepted_time s t₁ l₁ h₁
      have h₂ : t₂ - (edge_callback s t₁ l₁).1.lastStateChangeTime < DEBOUNCE_TIME := by
        rw [ht]; exact hlt
      rw [edge_callback_debounced _ t₂ l₂ h₂]
      exact ⟨Or.inr rfl, fun _ => rfl⟩
  · intro s t₁ t₂ l₁ l₂ h₁ h₂
    have hn₁ : ¬ t₁ - s.lastStateChangeTime < DEBOUNCE_TIME := not_lt.mpr h₁
    have ht₁ : (edge_callback s t₁ l₁).1.lastStateChangeTime = t₁ :=
      edge_callback_accepted_time s t₁ l₁ hn₁
    have hn₂ : ¬ t₂ - (edge_callback s t₁ l₁).1.lastStateChangeTime < DEBOUNCE_TIME := by
      rw [ht₁]; exact not_lt.mpr h₂
    exact ⟨ht₁, edge_callback_accepted_time _ t₂ l₂ hn₂⟩
  · show (edge_callback ⟨false, true, 0⟩ 1 false).2 = some ButtonEvent.press
    unfold edge_callback DEBOUNCE_TIME
    norm_num
  · show (edge_callback (edge_callback ⟨false, true, 0⟩ 1 false).1 2 true).2
        = some ButtonEvent.release
    have hfirst : (edge_callback ⟨false, true, 0⟩ 1 false).1
        = ⟨true, false, 1⟩ := by
      unfold edge_callback DEBOUNCE_TIME
      norm_num
    rw [hfirst]
    unfold edge_callback DEBOUNCE_TIME
    norm_num

theorem debounce_collapsing_witness :
    (((121 : ℚ) / 120) - 1 < DEBOUNCE_TIME) ∧
    (((edge_callback ⟨false, true, 0⟩ 1 false).2 = none ∨
      (edge_callback (edge_callback ⟨false, true, 0⟩ 1 false).1
        ((121 : ℚ) / 120) true).2 = none) ∧
    ((edge_callback ⟨false, true, 0⟩ 1 false).2 ≠ none →
      edge_callback (edge_callback ⟨false, true, 0⟩ 1 false).1
          ((121 : ℚ) / 120) true
        = ((edge_callback ⟨false, true, 0⟩ 1 false).1, none))) ∧
    (DEBOUNCE_TIME ≤ (1 : ℚ) - ButtonState.lastStateChangeTime ⟨false, true, 0⟩) ∧
    (DEBOUNCE_TIME ≤ (2 : ℚ) - 1) ∧
    ((edge_callback ⟨false, true, 0⟩ 1 false).1.lastStateChangeTime = 1 ∧
      (edge_callback (edge_callback ⟨false, true, 0⟩ 1 false).1 2 true).1.lastStateChangeTime
        = 2) :=
  ⟨by unfold DEBOUNCE_TIME; norm_num,
    debounce_collapsing.1 ⟨false, true, 0⟩ 1 ((121 : ℚ) / 120) false true
      (by unfold DEBOUNCE_TIME; norm_num),
    by unfold DEBOUNCE_TIME; norm_num,
    by unfold DEBOUNCE_TIME; norm_num,
    debounce_collapsing.2.1 ⟨false, true, 0⟩ 1 2 false true
      (by unfold DEBOUNCE_TIME; norm_num)
      (by unfold DEBOUNCE_TIME; norm_num)⟩

/-- The turn-relevant state of `VoiceClientApp`: `is_recording` and
`current_session_active`. -/
structure AppState where
  isRecording : Bool
  currentSessionActive : Bool
deriving DecidableEq, Repr

/-- The coroutine `VoiceClientApp._start_recording` (main.py lines 212-236): if a
recording or a session is already active the coroutine returns after a
warning log; otherwise it sets both flags and starts the microphone stream.
The returned Bool records whether a new recording/turn actually started. -/
def startRecordingStep (s : AppState) : AppState × Bool :=
  if s.isRecording = true ∨ s.currentSessionActive = true then (s, false)
  else (⟨true, true⟩, true)

/-- The handler `VoiceClientApp._on_button_press` (main.py lines 187-198) composed with
the `_start_recording` coroutine it schedules: if `is_recording` the press is
dropped in the handler itself (nothing scheduled); otherwise
`_start_recording` runs and its own guard re-checks both flags. The Bool
records whether a new recording/turn started. -/
def buttonPressTurn (s : AppState) : AppState × Bool :=
  if s.isRecording = true then (s, false)
  else startRecordingStep s

/-- C7: Re-entrant press guard. Whenever a turn is already in progress —
recording is active, or a session is active awaiting the response — a button
press leaves the state unchanged and starts no new recording or turn, so
overlapping turns on one session are impossible. -/
theorem button_press_reentrant_guard (s : AppState)
    (h : s.isRecording = true ∨ s.currentSessionActive = true) :
    buttonPressTurn s = (s, false) := by
  unfold buttonPressTurn startRecordingStep
  rcases h with h | h
  · rw [if_pos h]
  · by_cases hr : s.isRecording = true
    · rw [if_pos hr]
    · rw [if_neg hr, if_pos (Or.inr h)]

theorem button_press_reentrant_guard_witness :
    ((AppState.mk false true).isRecording = true ∨
      (AppState.mk false true).currentSessionActive = true) ∧
    buttonPressTurn ⟨false, true⟩ = (⟨false, true⟩, false) :=
  ⟨Or.inr rfl, button_press_reentrant_guard ⟨false, true⟩ (Or.inr rfl)⟩

/-- The constant `subsequent_timeout` (webrtc_client.py line 304), in seconds. -/
def subsequentTimeout : ℚ := 1

/-- The timeout-policy state of `_handle_incoming_audio`: `frame_count`,
`timeout_count`, and the `first_frame_timeout` local (initially 5.0 s,
overwritten with `subsequent_timeout` after the first received frame). -/
structure RecvState where
  frameCount : Nat
  timeoutCount : Nat
  firstFrameTimeout : ℚ
deriving DecidableEq

/-- The initial state of the receive loop (webrtc_client.py lines 301-304):
no frames, no timeouts, `first_frame_timeout = 5.0`. -/
def initRecvState : RecvState := ⟨0, 0, 5⟩

/-- The timeout chosen at the top of each loop iteration
(webrtc_client.py line 320): `first_frame_timeout` while no frame has been
received, `subsequent_timeout` afterwards. -/
def recvTimeout (s : RecvState) : ℚ :=
  if s.frameCount = 0 then s.firstFrameTimeout else subsequentTimeout

/-- The value `max_timeouts` (webrtc_client.py line 561): 10 before the first frame,
5 after at least one frame. -/
def maxTimeouts (s : RecvState) : Nat :=
  if s.frameCount = 0 then 10 else 5

/-- One observable iteration of the receive loop: either `track.recv`
returned a frame within the timeout, or `asyncio.wait_for` timed out. -/
inductive RecvEvent where
  | frame
  | timeout
deriving DecidableEq, Repr

/-- One iteration of the receive loop (webrtc_client.py lines 317-583,
ignoring the frame-processing body): on a received frame, `timeout_count`
resets to 0 and `first_frame_timeout` drops to `subsequent_timeout`; on a
timeout, `timeout_count` increments and the loop breaks gracefully once it
reaches `max_timeouts`. The Bool is the `break` flag. -/
def recvStep (s : RecvState) : RecvEvent → RecvState × Bool
  | .frame => (⟨s.frameCount + 1, 0, subsequentTimeout⟩, false)
  | .timeout =>
    (⟨s.frameCount, s.timeoutCount + 1, s.firstFrameTimeout⟩,
      decide (maxTimeouts s ≤ s.timeoutCount + 1))

/-- Result of running the receive loop on a trace of events: either the loop
broke out of the timeout branch (graceful stream completion — no exception is
raised on this path) or the trace ended with the loop still waiting. -/
inductive RecvOutcome where
  | streamComplete (s : RecvState)
  | running (s : RecvState)
deriving DecidableEq

/-- Run the receive loop over a list of events. -/
def runRecv (s : RecvState) : List RecvEvent → RecvOutcome
  | [] => .running s
  | e :: es =>
    let r := recvStep s e
    if r.2 then .streamComplete r.1 else runRecv r.1 es

/-- The state of the receive loop after a trace of events starting from the
initial state (ignoring the break flag). -/
def reachRecvState (evs : List RecvEvent) : RecvState :=
  evs.foldl (fun s e => (recvStep s e).1) initRecvState

lemma reachRecvState_firstFrameTimeout (evs : List RecvEvent) :
    (reachRecvState evs).frameCount = 0 → (reachRecvState evs).firstFrameTimeout = 5 := by
  unfold reachRecvState
  have hgen : ∀ (l : List RecvEvent) (s : RecvState),
      (s.frameCount = 0 → s.firstFrameTimeout = 5) →
      ((l.foldl (fun s e => (recvStep s e).1) s).frameCount = 0 →
        (l.foldl (fun s e => (recvStep s e).1) s).firstFrameTimeout = 5) := by
    intro l
    induction l with
    | nil => intro s hs; exact hs
    | cons e es ih =>
      intro s hs
      rcases e with _ | _
      · exact ih _ (fun hcon => absurd hcon (by simp [recvStep]))
      · exact ih _ (fun h0 => hs (by simpa [recvStep] using h0))
  exact hgen evs initRecvState (fun _ => rfl)

lemma runRecv_timeouts_running (fc : Nat) (fft : ℚ) :
    ∀ k tc, tc + k < maxTimeouts ⟨fc, tc, fft⟩ →
      runRecv ⟨fc, tc, fft⟩ (List.replicate k RecvEvent.timeout)
        = RecvOutcome.running ⟨fc, tc + k, fft⟩ := by
  intro k
  induction k with
  | zero => intro tc _; simp [runRecv]
  | succ k ih =>
    intro tc h
    have hmax : maxTimeouts ⟨fc, tc + 1, fft⟩ = maxTimeouts ⟨fc, tc, fft⟩ := rfl
    rw [List.replicate_succ]
    show (if (recvStep ⟨fc, tc, fft⟩ .timeout).2 then _ else _) = _
    have hbrk : (recvStep ⟨fc, tc, fft⟩ RecvEvent.timeout).2 = false := by
      simp only [recvStep, decide_eq_false_iff_not]
      omega
    rw [hbrk]
    simp only [Bool.false_eq_true, if_false]
    have := ih (tc + 1) (by rw [hmax]; omega)
    show runRecv ⟨fc, tc + 1, fft⟩ (List.replicate k RecvEvent.timeout) = _
    rw [this]
    have harith : tc + 1 + k = tc + (k + 1) := by omega
    rw [harith]

lemma runRecv_timeouts_complete (fc : Nat) (fft : ℚ) :
    ∀ k tc, tc + k = maxTimeouts ⟨fc, tc, fft⟩ → 0 < k →
      runRecv ⟨fc, tc, fft⟩ (List.replicate k RecvEvent.timeout)
        = RecvOutcome.streamComplete ⟨fc, maxTimeouts ⟨fc, tc, fft⟩, fft⟩ := by
  intro k
  induction k with
  | zero => intro tc _ hk; omega
  | succ k ih =>
    intro tc h _
    have hmax : maxTimeouts ⟨fc, tc + 1, fft⟩ = maxTimeouts ⟨fc, tc, fft⟩ := rfl
    rw [List.replicate_succ]
    show (if (recvStep ⟨fc, tc, fft⟩ .timeout).2 then _ else _) = _
    by_cases hk : k = 0
    · subst hk
      have hbrk : (recvStep ⟨fc, tc, fft⟩ RecvEvent.timeout).2 = true := by
        simp only [recvStep, decide_eq_true_eq]
        omega
      rw [hbrk]
      simp only [if_true]
      show RecvOutcome.streamComplete ⟨fc, tc + 1, fft⟩ = _
      rw [show tc + 1 = maxTimeouts ⟨fc, tc, fft⟩ by omega]
    · have hbrk : (recvStep ⟨fc, tc, fft⟩ RecvEvent.timeout).2 = false := by
        simp only [recvStep, decide_eq_false_iff_not]
        omega
      rw [hbrk]
      simp only [Bool.false_eq_true, if_false]
      show runRecv ⟨fc, tc + 1, fft⟩ (List.replicate k RecvEvent.timeout) = _
      rw [ih (tc + 1) (by rw [hmax]; omega) (by omega), hmax]

/-- C9: Receive-loop timeout policy and termination. (1) In every state
reachable from the start of the loop in which no frame has yet been
received, the chosen timeout is the generous 5.0 s; once at least one frame
has been received it is the shorter 1.0 s. (2) From any state with a fresh
consecutive-timeout count, fewer than `max_timeouts` consecutive timeouts
(10 before the first frame, 5 after) leave the loop running, and exactly
`max_timeouts` consecutive timeouts make the loop break out of the timeout
branch — modelled as the `streamComplete` outcome, the graceful path that
raises no error. -/
theorem recv_loop_timeout_policy :
    (∀ evs : List RecvEvent, (reachRecvState evs).frameCount = 0 →
      recvTimeout (reachRecvState evs) = 5) ∧
    (∀ evs : List RecvEvent, (reachRecvState evs).frameCount ≠ 0 →
      recvTimeout (reachRecvState evs) = 1) ∧
    (∀ (fc k : Nat) (fft : ℚ), k < (if fc = 0 then 10 else 5) →
      runRecv ⟨fc, 0, fft⟩ (List.replicate k RecvEvent.timeout)
        = RecvOutcome.running ⟨fc, k, fft⟩) ∧
    (∀ (fc : Nat) (fft : ℚ),
      runRecv ⟨fc, 0, fft⟩
          (List.replicate (if fc = 0 then 10 else 5) RecvEvent.timeout)
        = RecvOutcome.streamComplete ⟨fc, if fc = 0 then 10 else 5, fft⟩) := by
  refine ⟨?_, ?_, ?_, ?_⟩
  · intro evs h0
    rw [recvTimeout, if_pos h0]
    exact reachRecvState_firstFrameTimeout evs h0
  · intro evs h0
    rw [recvTimeout, if_neg h0]
    rfl
  · intro fc k fft hk
    have hmax : maxTimeouts ⟨fc, 0, fft⟩ = (if fc = 0 then 10 else 5) := rfl
    have := runRecv_timeouts_running fc fft k 0 (by rw [hmax]; omega)
    simpa using this
  · intro fc fft
    have hmax : maxTimeouts ⟨fc, 0, fft⟩ = (if fc = 0 then 10 else 5) := rfl
    have hpos : 0 < maxTimeouts ⟨fc, 0, fft⟩ := by
      rw [hmax]; split <;> omega
    have := runRecv_timeouts_complete fc fft (maxTimeouts ⟨fc, 0, fft⟩) 0
      (by omega) hpos
    rw [hmax] at this
    simpa using this

theorem recv_loop_timeout_policy_witness :
    ((reachRecvState []).frameCount = 0 ∧ recvTimeout (reachRecvState []) = 5) ∧
    ((reachRecvState [RecvEvent.frame]).frameCount ≠ 0 ∧
      recvTimeout (reachRecvState [RecvEvent.frame]) = 1) ∧
    ((3 : Nat) < (if (0 : Nat) = 0 then 10 else 5) ∧
      runRecv ⟨0, 0, 5⟩ (List.replicate 3 RecvEvent.timeout)
        = RecvOutcome.running ⟨0, 3, 5⟩) ∧
    runRecv ⟨1, 0, 1⟩ (List.replicate (if (1 : Nat) = 0 then 10 else 5) RecvEvent.timeout)
      = RecvOutcome.streamComplete ⟨1, if (1 : Nat) = 0 then 10 else 5, 1⟩ :=
  ⟨⟨rfl, recv_loop_timeout_policy.1 [] rfl⟩,
    ⟨by decide, recv_loop_timeout_policy.2.1 [RecvEvent.frame] (by decide)⟩,
    ⟨by decide, recv_loop_timeout_policy.2.2.1 0 3 5 (by decide)⟩,
    recv_loop_timeout_policy.2.2.2 1 1⟩

theorem output_callback_error_returns_silence_witness :
    (outputCallback 480 1 2 true ⟨[], 0, 0, true⟩).1
      = (some (List.replicate (480 * 1 * 2) 0), StreamFlag.paContinue) ∧
    (∃ buf, (outputCallback 480 1 2 true ⟨[], 0, 0, true⟩).1.1 = some buf ∧
      buf.length = 480 * 1 * 2 ∧ ∀ b ∈ buf, b = 0) :=
  output_callback_error_returns_silence 480 1 2 ⟨[], 0, 0, true⟩
